import Mathlib

/-!
Shallow embedding of the wpserve image-gallery application
(`app/thumbs.py`, `app/main.py`, `app/cli_import.py`, `app/models*.py`)
and proofs about its specification.

Modelling conventions:
* A filesystem path is its list of components, as produced by Python's
  `pathlib` from a string (empty and single-dot components are dropped).
* The filesystem is a finite association list from paths to file contents;
  directories are implicit (`mkdir` has no observable effect in the model).
* The image library (PIL) is out of scope per the specification and is
  modelled as a capability record: a decoder from raw contents to image
  data and a JPEG encoder; `Image.thumbnail` (bounded, aspect-preserving,
  never-upscaling resize) is modelled concretely.
* Database sessions/commits are modelled by explicit state passing; the
  importer's nondeterministic `uuid.uuid4().hex` tokens are modelled by an
  explicit supply `uuids : Nat → String` consumed in order.
-/

namespace Wpserve

/-- A filesystem path: its list of components. -/
abbrev FsPath := List String

/-- Split a character list at a separator character, keeping empty pieces. -/
def splitChars (sep : Char) : List Char → List Char → List String
  | acc, [] => [String.mk acc.reverse]
  | acc, c :: cs =>
    if c = sep then String.mk acc.reverse :: splitChars sep [] cs
    else splitChars sep (c :: acc) cs

/-- Parse a string into path components the way `pathlib.Path` does:
split on `/`, dropping empty components and single-dot components. -/
def pyPath (s : String) : FsPath :=
  (splitChars '/' [] s.toList).filter (fun c => c ≠ "" && c ≠ ".")

/-- Split a reversed character list at its first `.` (i.e. the last dot of
the original list): returns the characters before the dot (still reversed)
and the rest (the reversed stem). -/
def revSplitDot : List Char → Option (List Char × List Char)
  | [] => none
  | c :: cs =>
    if c = '.' then some ([], cs)
    else
      match revSplitDot cs with
      | none => none
      | some (sufr, stemr) => some (c :: sufr, stemr)

/-- Python `PurePath.suffix` of a file name: the substring from the last
dot, provided that dot is neither the first nor the last character;
otherwise the empty string. -/
def nameSuffix (name : String) : String :=
  match revSplitDot name.toList.reverse with
  | none => ""
  | some (sufr, stemr) =>
    if stemr = [] ∨ sufr = [] then "" else String.mk ('.' :: sufr.reverse)

/-- Python `PurePath.with_suffix` on a file name: drop the old suffix (if
any) and append the new one. -/
def nameWithSuffix (name suf : String) : String :=
  match revSplitDot name.toList.reverse with
  | none => name ++ suf
  | some (sufr, stemr) =>
    if stemr = [] ∨ sufr = [] then name ++ suf
    else String.mk stemr.reverse ++ suf

/-- Suffix of a path: the suffix of its final component. -/
def pathSuffix (p : FsPath) : String :=
  match p.getLast? with
  | none => ""
  | some name => nameSuffix name

/-- `Path.with_suffix` lifted to paths: rewrite the final component. -/
def withSuffix : FsPath → String → FsPath
  | [], _ => []
  | [n], suf => [nameWithSuffix n suf]
  | c :: rest, suf => c :: withSuffix rest suf

/-- ASCII lower-casing of a string (Python `str.lower` on extensions). -/
def lowerStr (s : String) : String := String.mk (s.toList.map Char.toLower)

/-- File contents: raw bytes, or a complete JPEG produced by the encoder. -/
inductive Content where
  | bytes (data : Nat)
  | jpeg (data : Nat)
deriving DecidableEq, Repr

/-- Decoded image data as exposed by the image library. -/
structure ImgData where
  width : Nat
  height : Nat
  mode : String
deriving DecidableEq, Repr

/-- The image library as a capability (spec section 1 treats it as
"decode image, compute size, re-encode at reduced resolution"): a decoder
and a quality-parameterised JPEG encoder, both fallible. -/
structure PilCap where
  decode : Content → Option ImgData
  encodeJpeg : ImgData → Nat → Option Nat

/-- PIL `Image.thumbnail`: shrink to fit inside the box, preserving the
aspect ratio, never upscaling. -/
def pilFit (box : Nat × Nat) (im : ImgData) : ImgData :=
  if im.width ≤ box.1 ∧ im.height ≤ box.2 then im
  else if im.width * box.2 ≤ im.height * box.1 then
    { im with width := im.width * box.2 / im.height, height := box.2 }
  else
    { im with width := box.1, height := im.height * box.1 / im.width }

/-- The filesystem: an association list from paths to contents, where a
write shadows earlier entries. -/
structure FS where
  files : List (FsPath × Content)
deriving DecidableEq, Repr

/-- First-match lookup in an association list of files. -/
def lookupFile : List (FsPath × Content) → FsPath → Option Content
  | [], _ => none
  | (q, c) :: rest, p => if p = q then some c else lookupFile rest p

/-- Read the contents of a file, if present. -/
def FS.read (fs : FS) (p : FsPath) : Option Content := lookupFile fs.files p

/-- Python `Path.is_file` / `Path.exists` in the model. -/
def FS.isFile (fs : FS) (p : FsPath) : Bool := (fs.read p).isSome

/-- Write (create or overwrite) a file. -/
def FS.write (fs : FS) (p : FsPath) (c : Content) : FS := ⟨(p, c) :: fs.files⟩

/-! ## app/thumbs.py -/

/-- `THUMBS_ROOT = Path("static/thumbs")`. -/
def THUMBS_ROOT : FsPath := ["static", "thumbs"]

/-- `IMAGES_ROOT = Path("static/images")`. -/
def IMAGES_ROOT : FsPath := ["static", "images"]

/-- `MAX_THUMB_SIZE = (512, 512)`. -/
def MAX_THUMB_SIZE : Nat × Nat := (512, 512)

/-- `derive_relative_path`: prefer `file_path` if it already has a suffix,
otherwise treat it as a directory and append `file_name`. -/
def derive_relative_path (file_path file_name : String) : FsPath :=
  let p := pyPath file_path
  if pathSuffix p ≠ "" then p else p ++ pyPath file_name

/-- `original_file_path`: the original under `IMAGES_ROOT`. -/
def original_file_path (file_path file_name : String) : FsPath :=
  IMAGES_ROOT ++ derive_relative_path file_path file_name

/-- `thumb_file_path`: the cached thumbnail for a relative original path:
`THUMBS_ROOT / file_path.with_suffix(".jpg")`. -/
def thumb_file_path (file_path : FsPath) : FsPath :=
  THUMBS_ROOT ++ withSuffix file_path ".jpg"

/-- The body of `ensure_thumbnail`'s try-block as a function of the source
file's contents: decode, bounded resize to `MAX_THUMB_SIZE`, convert to RGB
unless the mode is `RGB` or `L`, encode as JPEG at quality 80. `none`
models any decode/encode exception. -/
def thumbContentOf (pil : PilCap) (c : Content) : Option Content :=
  match pil.decode c with
  | none => none
  | some im0 =>
    let im1 := pilFit MAX_THUMB_SIZE im0
    let im2 := if im1.mode = "RGB" ∨ im1.mode = "L" then im1 else { im1 with mode := "RGB" }
    match pil.encodeJpeg im2 80 with
    | none => none
    | some data => some (Content.jpeg data)

/-- `ensure_thumbnail(src, dst)`: miss if the original is absent; pure
cache hit if the destination already exists; otherwise generate and write
the thumbnail, returning a miss (and writing nothing) on decode/encode
failure. Returns the result together with the updated filesystem. -/
def ensure_thumbnail (pil : PilCap) (src dst : FsPath) (fs : FS) :
    Option FsPath × FS :=
  if fs.isFile src then
    if fs.isFile dst then (some dst, fs)
    else
      match fs.read src with
      | none => (none, fs)
      | some c =>
        match thumbContentOf pil c with
        | none => (none, fs)
        | some tc => (some dst, fs.write dst tc)
  else (none, fs)

/-! ## app/models.py and app/main.py (serving side) -/

/-- An `Image` row of the serving catalog (`app/models.py`); `tagIds`
models the rows of the `image_tag` join table for this image (cascade
deleted with the row). -/
structure ImageRow where
  id : Nat
  file_path : String
  file_name : String
  file_size : Int
  width : Int
  height : Int
  format : String
  tagIds : List Nat
deriving DecidableEq, Repr

/-- A `Tag` row of the serving catalog. -/
structure TagRow where
  id : Nat
  name : String
deriving DecidableEq, Repr

/-- The serving catalog: the `image` and `tag` tables. -/
structure ServerDB where
  images : List ImageRow
  tags : List TagRow
deriving DecidableEq, Repr

/-- `Path("." + file_path)` as used throughout `app/main.py` to turn a
stored (absolute-looking) path into a relative one. -/
def dotRel (file_path : String) : FsPath := pyPath ("." ++ file_path)

/-- Result of the startup scan: surviving rows, filesystem, counters. -/
structure RowsResult where
  imgs : List ImageRow
  fs : FS
  removed : Nat
  generated : Nat
deriving Repr

/-- The loop body of `startup_scan` over the image rows: delete rows whose
original file is missing; for the rest, generate the thumbnail when it is
absent, counting successes. -/
def startup_scan_rows (pil : PilCap) (base : FsPath) :
    List ImageRow → FS → RowsResult
  | [], fs => ⟨[], fs, 0, 0⟩
  | img :: rest, fs =>
    let original := base ++ dotRel img.file_path
    if fs.isFile original then
      let thumb := thumb_file_path (dotRel img.file_path)
      if fs.isFile thumb then
        let r := startup_scan_rows pil base rest fs
        ⟨img :: r.imgs, r.fs, r.removed, r.generated⟩
      else
        match ensure_thumbnail pil original thumb fs with
        | (some _, fs2) =>
          let r := startup_scan_rows pil base rest fs2
          ⟨img :: r.imgs, r.fs, r.removed, r.generated + 1⟩
        | (none, fs2) =>
          let r := startup_scan_rows pil base rest fs2
          ⟨img :: r.imgs, r.fs, r.removed, r.generated⟩
    else
      let r := startup_scan_rows pil base rest fs
      ⟨r.imgs, r.fs, r.removed + 1, r.generated⟩

/-- Result of `startup_scan`: catalog, filesystem and the two counters. -/
structure ScanResult where
  db : ServerDB
  fs : FS
  removed : Nat
  generated : Nat
deriving Repr

/-- `startup_scan` (`app/main.py`): walk all `Image` rows, delete those
whose original is missing, backfill missing thumbnails for the rest; the
`tag` table is untouched. -/
def startup_scan (pil : PilCap) (base : FsPath) (db : ServerDB) (fs : FS) :
    ScanResult :=
  let r := startup_scan_rows pil base db.images fs
  ⟨{ db with images := r.imgs }, r.fs, r.removed, r.generated⟩

/-- The absolute original path resolved by `startup_scan` for a row:
`BASE_PATH / Path("." + img.file_path)`. -/
def origPath (base : FsPath) (a : ImageRow) : FsPath := base ++ dotRel a.file_path

/-- The expected thumbnail path resolved by `startup_scan` for a row:
`thumb_file_path(Path("." + img.file_path))`. -/
def thumbPathOf (a : ImageRow) : FsPath := thumb_file_path (dotRel a.file_path)

/-- `Tag.images.any()` of the index route: the tag has at least one
associated image. -/
def tag_has_images (db : ServerDB) (t : TagRow) : Bool :=
  db.images.any (fun img => img.tagIds.contains t.id)

/-- Insertion into a list of tags sorted by name. -/
def insertByName (t : TagRow) : List TagRow → List TagRow
  | [] => [t]
  | u :: us => if t.name ≤ u.name then t :: u :: us else u :: insertByName t us

/-- Sort a list of tags by name (`order_by(Tag.name)`). -/
def sortByName : List TagRow → List TagRow
  | [] => []
  | t :: ts => insertByName t (sortByName ts)

/-- The tag listing of the index route (`app/main.py`): tags that have at
least one image, ordered by name. A read-only query. -/
def index_tags (db : ServerDB) : List TagRow :=
  sortByName (db.tags.filter (fun t => tag_has_images db t))

/-! ## app/models/image.py and app/cli_import.py (importer side) -/

/-- `SUPPORTED_EXT`. -/
def SUPPORTED_EXT : List String := [".jpg", ".jpeg", ".png", ".gif", ".webp"]

/-- A row of the foreign source catalog's `image` table. -/
structure SrcRow where
  id : Nat
  file_path : String
  file_name : String
  file_size : Int
  width : Int
  height : Int
deriving DecidableEq, Repr

/-- The foreign source catalog: image rows (in id order, as queried) and
the `(image id, tag name)` pairs of its join query. -/
structure SourceDB where
  rows : List SrcRow
  tagLinks : List (Nat × String)
deriving Repr

/-- The `image_tags` mapping built from the join query: tag names of one
source image, in query order. -/
def imageTagsOf (sdb : SourceDB) (imgId : Nat) : List String :=
  (sdb.tagLinks.filter (fun pr => pr.1 == imgId)).map (fun pr => pr.2)

/-- An `Image` row of the local catalog (`app/models/image.py`); `tags`
models its tag associations, by name. -/
structure LocalImage where
  filename : String
  width : Int
  height : Int
  file_size : Int
  tags : List String
deriving DecidableEq, Repr

/-- The local catalog: the `images` table and the names of the `tags`
table (the in-memory `tag_cache` coincides with the latter). -/
structure LocalDB where
  images : List LocalImage
  tags : List String
deriving DecidableEq, Repr

/-- The importer's `--mode` argument. -/
inductive Mode where
  | copy
  | link
  | skip
deriving DecidableEq, Repr

/-- Importer loop state: catalog, filesystem, the two counters, and the
number of uuid tokens consumed so far. -/
structure ImportState where
  db : LocalDB
  fs : FS
  imported : Nat
  skipped : Nat
  fresh : Nat
deriving Repr

/-- Insertion into a sorted list of strings. -/
def insertStr (x : String) : List String → List String
  | [] => [x]
  | y :: ys => if x ≤ y then x :: y :: ys else y :: insertStr x ys

/-- Sort a list of strings. -/
def sortStrings : List String → List String
  | [] => []
  | x :: xs => insertStr x (sortStrings xs)

/-- Python `sorted(set(xs))`: distinct elements in sorted order. -/
def sortedDedup (xs : List String) : List String := sortStrings xs.eraseDups

/-- The tag loop of the importer: for each tag name in order, create a
`Tag` row unless the cache already holds one of that name. -/
def addTags : List String → List String → List String
  | table, [] => table
  | table, n :: rest =>
    if n ∈ table then addTags table rest else addTags (table ++ [n]) rest

/-- `shutil.copy2` / `symlink_to` in the model: the destination gets the
source's contents (a symlink is modelled as a content-sharing copy; the
claims never distinguish a link from a copy). -/
def copyFile (fs : FS) (src dst : FsPath) : FS :=
  match fs.read src with
  | none => fs
  | some c => fs.write dst c

/-- The importer's inline thumbnail pipeline (fit within 480×270, convert
`RGBA`/`LA` to RGB, JPEG quality 80) on an optional source content;
`none` models any exception, which the importer logs and ignores. -/
def importThumbContent (pil : PilCap) (oc : Option Content) : Option Content :=
  match oc with
  | none => none
  | some c =>
    match pil.decode c with
    | none => none
    | some im0 =>
      let im1 := pilFit (480, 270) im0
      let im2 := if im1.mode = "RGBA" ∨ im1.mode = "LA" then { im1 with mode := "RGB" } else im1
      match pil.encodeJpeg im2 80 with
      | none => none
      | some data => some (Content.jpeg data)

/-- The body of the importer's per-record loop (`import_data`, lines
80–158): the `"v"` marker filter (a bare `continue`), the unsupported
extension / duplicate filename / missing source skips (each counted),
file bring-in according to the mode, the inline thumbnail attempt, and
the insert of the `Image` row plus its tags. -/
def processRecord (uuids : Nat → String) (mode : Mode) (copy_from : FsPath)
    (pil : PilCap) (sdb : SourceDB) (st : ImportState) (row : SrcRow) :
    ImportState :=
  let tags := imageTagsOf sdb row.id
  if "v" ∉ tags then st
  else
    let ext := lowerStr (nameSuffix row.file_name)
    if ext ∉ SUPPORTED_EXT then { st with skipped := st.skipped + 1 }
    else if ∃ img ∈ st.db.images, img.filename = row.file_name then
      { st with skipped := st.skipped + 1 }
    else
      let src_path := copy_from ++ pyPath ("." ++ row.file_path)
      if ¬ st.fs.isFile src_path then { st with skipped := st.skipped + 1 }
      else
        let new_filename := uuids st.fresh ++ ext
        let dest_file := IMAGES_ROOT ++ [new_filename]
        let dest_thumb := THUMBS_ROOT ++ [new_filename]
        let fs1 :=
          match mode with
          | Mode.copy => copyFile st.fs src_path dest_file
          | Mode.link => copyFile st.fs src_path dest_file
          | Mode.skip => st.fs
        let fs2 :=
          match mode with
          | Mode.skip => fs1
          | _ =>
            let source := if fs1.isFile dest_file then dest_file else src_path
            match importThumbContent pil (fs1.read source) with
            | none => fs1
            | some tc => fs1.write dest_thumb tc
        let img : LocalImage :=
          { filename := new_filename, width := row.width, height := row.height,
            file_size := row.file_size, tags := sortedDedup tags }
        { db := { images := img :: st.db.images,
                  tags := addTags st.db.tags (sortedDedup tags) },
          fs := fs2,
          imported := st.imported + 1,
          skipped := st.skipped,
          fresh := st.fresh + 1 }

/-- The importer's main loop over the source rows. -/
def import_rows (uuids : Nat → String) (mode : Mode) (copy_from : FsPath)
    (pil : PilCap) (sdb : SourceDB) : List SrcRow → ImportState → ImportState
  | [], st => st
  | row :: rest, st =>
    import_rows uuids mode copy_from pil sdb rest
      (processRecord uuids mode copy_from pil sdb st row)

/-- `import_data`: apply the (truthy) limit to the source rows, then run
the per-record loop from a fresh pair of counters over the given local
catalog and filesystem. -/
def import_data (uuids : Nat → String) (mode : Mode) (copy_from : FsPath)
    (pil : PilCap) (sdb : SourceDB) (limit : Option Nat)
    (db : LocalDB) (fs : FS) : ImportState :=
  let rows :=
    match limit with
    | some n => if n = 0 then sdb.rows else sdb.rows.take n
    | none => sdb.rows
  import_rows uuids mode copy_from pil sdb rows
    { db := db, fs := fs, imported := 0, skipped := 0, fresh := 0 }

/-! ## Concrete fixtures used by witnesses and counterexamples -/

/-- A capability whose decoder and encoder always succeed. -/
def pilW : PilCap := ⟨fun _ => some ⟨600, 400, "RGB"⟩, fun _ _ => some 5⟩

/-- A capability whose decoder always fails. -/
def pilNone : PilCap := ⟨fun _ => none, fun _ _ => none⟩

/-- A one-file filesystem holding an original image. -/
def fsW : FS := ⟨[(["s.png"], Content.bytes 1)]⟩

/-- A catalog row whose original file exists in `fsS`. -/
def rowA : ImageRow := ⟨1, "/x.png", "x.png", 5, 2, 2, "png", [1]⟩

/-- A catalog row whose original file is missing from `fsS`. -/
def rowB : ImageRow := ⟨2, "/y.png", "y.png", 5, 2, 2, "png", []⟩

/-- A serving catalog with the two rows above and one tag. -/
def dbS : ServerDB := ⟨[rowA, rowB], [⟨1, "v"⟩]⟩

/-- A filesystem holding only `rowA`'s original. -/
def fsS : FS := ⟨[(["x.png"], Content.bytes 3)]⟩

/-- A constant uuid supply for a first importer run. -/
def uuidsU : Nat → String := fun _ => "u0hex"

/-- A constant uuid supply for a second importer run. -/
def uuidsW : Nat → String := fun _ => "w0hex"

/-- A source record with a `.jpg` file name. -/
def rowOne : SrcRow := ⟨1, "/a.jpg", "a.jpg", 10, 600, 400⟩

/-- A source catalog with one marker-tagged record. -/
def srcOne : SourceDB := ⟨[rowOne], [(1, "v")]⟩

/-- A source catalog whose record lacks the `"v"` marker tag. -/
def srcNoV : SourceDB := ⟨[rowOne], [(1, "x")]⟩

/-- A filesystem holding `rowOne`'s source file. -/
def fsSrc : FS := ⟨[(["a.jpg"], Content.bytes 7)]⟩

/-- A source record with a `.png` file name. -/
def rowPng : SrcRow := ⟨1, "/a.png", "a.png", 10, 600, 400⟩

/-- A source catalog with one marker-tagged `.png` record. -/
def srcPng : SourceDB := ⟨[rowPng], [(1, "v")]⟩

/-- A filesystem holding `rowPng`'s source file. -/
def fsPng : FS := ⟨[(["a.png"], Content.bytes 7)]⟩

/-- A source record whose width is reported as `0`. -/
def rowZero : SrcRow := ⟨1, "/a.jpg", "a.jpg", 10, 0, 400⟩

/-- A source catalog with one marker-tagged zero-width record. -/
def srcZero : SourceDB := ⟨[rowZero], [(1, "v")]⟩

/-- A source record with an unsupported `.bmp` extension. -/
def rowBmp : SrcRow := ⟨1, "/a.bmp", "a.bmp", 10, 600, 400⟩

/-- A source catalog with one marker-tagged `.bmp` record. -/
def srcBmp : SourceDB := ⟨[rowBmp], [(1, "v")]⟩

/-- An empty local catalog. -/
def db0 : LocalDB := ⟨[], []⟩

/-- An empty local catalog that already holds a `"v"` tag row. -/
def dbV : LocalDB := ⟨[], ["v"]⟩

/-- Importer state over the empty catalog and `fsSrc`. -/
def stA : ImportState := ⟨db0, fsSrc, 0, 0, 0⟩

/-- Importer state over the empty catalog and `fsPng`. -/
def stPng : ImportState := ⟨db0, fsPng, 0, 0, 0⟩

/-- Importer state whose catalog already holds a row named `a.jpg`. -/
def stDup : ImportState := ⟨⟨[⟨"a.jpg", 1, 1, 1, []⟩], []⟩, fsSrc, 0, 0, 0⟩

/-- Importer state over an empty filesystem. -/
def stEmptyFs : ImportState := ⟨db0, ⟨[]⟩, 0, 0, 0⟩

/-! ## Filesystem lemmas -/

theorem FS.read_write_self (fs : FS) (p : FsPath) (c : Content) :
    (fs.write p c).read p = some c := by
  simp [FS.write, FS.read, lookupFile]

theorem FS.read_write_of_ne (fs : FS) {p q : FsPath} (c : Content) (h : q ≠ p) :
    (fs.write p c).read q = fs.read q := by
  simp [FS.write, FS.read, lookupFile, h]

theorem FS.isFile_eq_false {fs : FS} {p : FsPath} :
    fs.isFile p = false ↔ fs.read p = none := by
  unfold FS.isFile
  cases fs.read p <;> simp

theorem FS.isFile_eq_true {fs : FS} {p : FsPath} :
    fs.isFile p = true ↔ ∃ c, fs.read p = some c := by
  unfold FS.isFile
  cases fs.read p <;> simp

theorem FS.read_write_preserve (fs : FS) {p : FsPath} (c : Content)
    (hp : fs.read p = none) {q : FsPath} {c0 : Content}
    (hq : fs.read q = some c0) : (fs.write p c).read q = some c0 := by
  have hne : q ≠ p := by
    rintro rfl
    rw [hp] at hq
    cases hq
  rw [FS.read_write_of_ne _ _ hne, hq]

theorem FS.isFile_write_mono (fs : FS) {p : FsPath} (c : Content)
    (hp : fs.read p = none) {q : FsPath} (hq : fs.isFile q = true) :
    (fs.write p c).isFile q = true := by
  rcases FS.isFile_eq_true.mp hq with ⟨c0, hc0⟩
  exact FS.isFile_eq_true.mpr ⟨c0, FS.read_write_preserve fs c hp hc0⟩

/-! ## Lemmas about `ensure_thumbnail` -/

theorem thumbContentOf_jpeg {pil : PilCap} {c tc : Content}
    (h : thumbContentOf pil c = some tc) : ∃ n, tc = Content.jpeg n := by
  unfold thumbContentOf at h
  rcases hd : pil.decode c with _ | im0
  · rw [hd] at h
    cases h
  · rw [hd] at h
    simp only at h
    rcases he : pil.encodeJpeg
        (if (pilFit MAX_THUMB_SIZE im0).mode = "RGB" ∨ (pilFit MAX_THUMB_SIZE im0).mode = "L"
          then pilFit MAX_THUMB_SIZE im0
          else { pilFit MAX_THUMB_SIZE im0 with mode := "RGB" }) 80 with _ | data
    · rw [he] at h
      cases h
    · rw [he] at h
      exact ⟨data, (Option.some_inj.mp h).symm⟩

theorem ensure_thumbnail_hit {pil : PilCap} {src dst : FsPath} {fs : FS}
    (h1 : fs.isFile src = true) (h2 : fs.isFile dst = true) :
    ensure_thumbnail pil src dst fs = (some dst, fs) := by
  unfold ensure_thumbnail
  rw [h1, h2]
  simp

/-- Complete case analysis of `ensure_thumbnail`. -/
theorem ensure_thumbnail_spec (pil : PilCap) (src dst : FsPath) (fs : FS) :
    (fs.isFile src = false ∧ ensure_thumbnail pil src dst fs = (none, fs)) ∨
    (fs.isFile src = true ∧ fs.isFile dst = true ∧
      ensure_thumbnail pil src dst fs = (some dst, fs)) ∨
    (fs.isFile src = true ∧ fs.isFile dst = false ∧
      ∃ c, fs.read src = some c ∧
        ((thumbContentOf pil c = none ∧
            ensure_thumbnail pil src dst fs = (none, fs)) ∨
          (∃ tc, thumbContentOf pil c = some tc ∧
            ensure_thumbnail pil src dst fs = (some dst, fs.write dst tc)))) := by
  rcases h1 : fs.isFile src with _ | _
  · left
    refine ⟨rfl, ?_⟩
    unfold ensure_thumbnail
    rw [h1]
    simp
  · rcases h2 : fs.isFile dst with _ | _
    · right; right
      refine ⟨rfl, rfl, ?_⟩
      rcases FS.isFile_eq_true.mp h1 with ⟨c, hc⟩
      refine ⟨c, hc, ?_⟩
      rcases ht : thumbContentOf pil c with _ | tc
      · left
        refine ⟨rfl, ?_⟩
        unfold ensure_thumbnail
        rw [h1, h2, hc]
        simp [ht]
      · right
        refine ⟨tc, rfl, ?_⟩
        unfold ensure_thumbnail
        rw [h1, h2, hc]
        simp [ht]
    · right; left
      exact ⟨rfl, rfl, ensure_thumbnail_hit h1 h2⟩

/-- After a successful call, both the original and the destination are
files, and the returned path is `dst`. -/
theorem ensure_thumbnail_success {pil : PilCap} {src dst : FsPath} {fs : FS}
    {p : FsPath} (h : (ensure_thumbnail pil src dst fs).1 = some p) :
    p = dst ∧
    (ensure_thumbnail pil src dst fs).2.isFile src = true ∧
    (ensure_thumbnail pil src dst fs).2.isFile dst = true := by
  rcases ensure_thumbnail_spec pil src dst fs with ⟨_, he⟩ | ⟨h1, h2, he⟩ |
    ⟨h1, h2, c, hc, ⟨_, he⟩ | ⟨tc, _, he⟩⟩
  · rw [he] at h
    cases h
  · rw [he] at h ⊢
    exact ⟨(Option.some_inj.mp h).symm, h1, h2⟩
  · rw [he] at h
    cases h
  · rw [he] at h ⊢
    have hdn : fs.read dst = none := FS.isFile_eq_false.mp h2
    refine ⟨(Option.some_inj.mp h).symm, ?_, ?_⟩
    · exact FS.isFile_write_mono fs tc hdn h1
    · exact FS.isFile_eq_true.mpr ⟨tc, FS.read_write_self fs dst tc⟩

/-- C1: if a call `ensure_thumbnail src dst` succeeded (returned a path),
that path is `dst`, and a second call with the same arguments on the
resulting filesystem is a pure cache hit: it returns `dst` again and
leaves the filesystem (the destination file's contents included) exactly
unchanged. -/
theorem ensure_thumbnail_second_call_noop (pil : PilCap) (src dst : FsPath)
    (fs : FS) (p : FsPath)
    (h : (ensure_thumbnail pil src dst fs).1 = some p) :
    p = dst ∧
    ensure_thumbnail pil src dst (ensure_thumbnail pil src dst fs).2 =
      (some dst, (ensure_thumbnail pil src dst fs).2) := by
  rcases ensure_thumbnail_success h with ⟨hp, hsrc, hdst⟩
  exact ⟨hp, ensure_thumbnail_hit hsrc hdst⟩

/-- Witness for C1 at a concrete input: a fresh generation followed by a
cache hit on the unchanged filesystem. -/
theorem ensure_thumbnail_second_call_noop_witness :
    ensure_thumbnail pilW ["s.png"] ["t.jpg"]
        (ensure_thumbnail pilW ["s.png"] ["t.jpg"] fsW).2 =
      (some ["t.jpg"], (ensure_thumbnail pilW ["s.png"] ["t.jpg"] fsW).2) :=
  (ensure_thumbnail_second_call_noop pilW ["s.png"] ["t.jpg"] fsW ["t.jpg"]
    (by decide)).2

/-- C4: when the destination is absent, a decode/encode failure makes
`ensure_thumbnail` return a miss with the filesystem exactly unchanged (in
particular no partial file at `dst`); and in every case, the destination
afterwards either holds no file at all or holds a complete JPEG produced
by the encoder. -/
theorem ensure_thumbnail_failure_atomic (pil : PilCap) (src dst : FsPath)
    (fs : FS) (hdst : fs.isFile dst = false) :
    ((∀ c, fs.read src = some c → thumbContentOf pil c = none) →
      ensure_thumbnail pil src dst fs = (none, fs)) ∧
    ((ensure_thumbnail pil src dst fs).2.read dst = none ∨
      ∃ n, (ensure_thumbnail pil src dst fs).2.read dst =
        some (Content.jpeg n)) := by
  have hdn : fs.read dst = none := FS.isFile_eq_false.mp hdst
  rcases ensure_thumbnail_spec pil src dst fs with ⟨h1, he⟩ | ⟨h1, h2, he⟩ |
    ⟨h1, h2, c, hc, ⟨ht, he⟩ | ⟨tc, ht, he⟩⟩
  · exact ⟨fun _ => he, by rw [he]; exact Or.inl hdn⟩
  · rw [h2] at hdst
    cases hdst
  · exact ⟨fun _ => he, by rw [he]; exact Or.inl hdn⟩
  · refine ⟨fun hfail => ?_, ?_⟩
    · rw [hfail c hc] at ht
      cases ht
    · rw [he]
      rcases thumbContentOf_jpeg ht with ⟨n, rfl⟩
      exact Or.inr ⟨n, FS.read_write_self fs dst (Content.jpeg n)⟩

/-- Witness for C4 at a concrete input: a failing decoder yields a miss
and leaves the filesystem unchanged. -/
theorem ensure_thumbnail_failure_atomic_witness :
    ensure_thumbnail pilNone ["s.png"] ["t.jpg"] fsW = (none, fsW) :=
  (ensure_thumbnail_failure_atomic pilNone ["s.png"] ["t.jpg"] fsW
    (by decide)).1 (fun c _ => rfl)

theorem ensure_read_preserve (pil : PilCap) (src dst : FsPath) (fs : FS)
    {q : FsPath} {c0 : Content} (hq : fs.read q = some c0) :
    (ensure_thumbnail pil src dst fs).2.read q = some c0 := by
  rcases ensure_thumbnail_spec pil src dst fs with ⟨_, he⟩ | ⟨_, _, he⟩ |
    ⟨_, h2, c, _, ⟨_, he⟩ | ⟨tc, _, he⟩⟩ <;> rw [he]
  · exact hq
  · exact hq
  · exact hq
  · exact FS.read_write_preserve fs tc (FS.isFile_eq_false.mp h2) hq

theorem ensure_fail_eq {pil : PilCap} {src dst : FsPath} {fs : FS}
    {c : Content} (h1 : fs.read src = some c) (h2 : fs.isFile dst = false)
    (ht : thumbContentOf pil c = none) :
    ensure_thumbnail pil src dst fs = (none, fs) := by
  have hs : fs.isFile src = true := FS.isFile_eq_true.mpr ⟨c, h1⟩
  rcases ensure_thumbnail_spec pil src dst fs with ⟨h1f, _⟩ | ⟨_, h2t, _⟩ |
    ⟨_, _, c2, hc2, ⟨_, he⟩ | ⟨tc, ht2, _⟩⟩
  · rw [hs] at h1f
    cases h1f
  · rw [h2t] at h2
    cases h2
  · exact he
  · rw [h1] at hc2
    rw [Option.some_inj.mp hc2] at ht
    rw [ht] at ht2
    cases ht2

/-- In the generation branch (source present, destination absent), the
call either fails leaving the filesystem unchanged (and the source's
contents do not produce a thumbnail), or writes the destination once. -/
theorem ensure_miss_cases {pil : PilCap} {src dst : FsPath} {fs : FS}
    {o : Option FsPath} {fs2 : FS} (h1 : fs.isFile src = true)
    (h2 : fs.isFile dst = false)
    (hE : ensure_thumbnail pil src dst fs = (o, fs2)) :
    (o = none ∧ fs2 = fs ∧
      ∃ c, fs.read src = some c ∧ thumbContentOf pil c = none) ∨
    (o = some dst ∧ ∃ tc, fs2 = fs.write dst tc) := by
  rcases ensure_thumbnail_spec pil src dst fs with ⟨h1f, _⟩ | ⟨_, h2t, _⟩ |
    ⟨_, _, c, hc, ⟨ht, he⟩ | ⟨tc, ht, he⟩⟩
  · rw [h1] at h1f
    cases h1f
  · rw [h2t] at h2
    cases h2
  · rw [hE] at he
    rcases Prod.mk.injEq _ _ _ _ ▸ he with ⟨ho, hfs⟩
    exact Or.inl ⟨ho.symm ▸ rfl, by rw [← hfs], c, hc, ht⟩
  · rw [hE] at he
    rcases Prod.mk.injEq _ _ _ _ ▸ he with ⟨ho, hfs⟩
    exact Or.inr ⟨by rw [ho], tc, by rw [hfs]⟩

theorem scan_rows_read_preserve (pil : PilCap) (base : FsPath)
    (l : List ImageRow) (fs : FS) {q : FsPath} {c0 : Content}
    (hq : fs.read q = some c0) :
    (startup_scan_rows pil base l fs).fs.read q = some c0 := by
  induction l generalizing fs with
  | nil => simpa [startup_scan_rows] using hq
  | cons img rest ih =>
    rcases h1 : fs.isFile (base ++ dotRel img.file_path) with _ | _
    · simpa [startup_scan_rows, h1] using ih fs hq
    · rcases h2 : fs.isFile (thumb_file_path (dotRel img.file_path)) with _ | _
      · rcases hE : ensure_thumbnail pil (base ++ dotRel img.file_path)
            (thumb_file_path (dotRel img.file_path)) fs with ⟨o, fs2⟩
        have hq2 : fs2.read q = some c0 := by
          have h := ensure_read_preserve pil (base ++ dotRel img.file_path)
            (thumb_file_path (dotRel img.file_path)) fs hq
          rwa [hE] at h
        cases o with
        | none => simpa [startup_scan_rows, h1, h2, hE] using ih fs2 hq2
        | some p => simpa [startup_scan_rows, h1, h2, hE] using ih fs2 hq2
      · simpa [startup_scan_rows, h1, h2] using ih fs hq

theorem scan_rows_isFile_mono (pil : PilCap) (base : FsPath)
    (l : List ImageRow) (fs : FS) {q : FsPath} (hq : fs.isFile q = true) :
    (startup_scan_rows pil base l fs).fs.isFile q = true := by
  rcases FS.isFile_eq_true.mp hq with ⟨c0, hc0⟩
  exact FS.isFile_eq_true.mpr ⟨c0, scan_rows_read_preserve pil base l fs hc0⟩

/-- Structural characterization of the scan loop: the surviving rows are
a sublist of the input; removed counts the deleted rows; rows whose
original exists initially are never deleted; surviving rows have their
original present afterwards; generated counts the files created. -/
theorem scan_rows_main (pil : PilCap) (base : FsPath) (l : List ImageRow)
    (fs : FS) :
    List.Sublist (startup_scan_rows pil base l fs).imgs l ∧
    (startup_scan_rows pil base l fs).removed +
      (startup_scan_rows pil base l fs).imgs.length = l.length ∧
    (∀ a ∈ l, fs.isFile (origPath base a) = true →
      a ∈ (startup_scan_rows pil base l fs).imgs) ∧
    (∀ a ∈ (startup_scan_rows pil base l fs).imgs,
      (startup_scan_rows pil base l fs).fs.isFile (origPath base a) = true) ∧
    (startup_scan_rows pil base l fs).generated + fs.files.length =
      (startup_scan_rows pil base l fs).fs.files.length := by
  induction l generalizing fs with
  | nil => simp [startup_scan_rows]
  | cons img rest ih =>
    rcases h1 : fs.isFile (base ++ dotRel img.file_path) with _ | _
    · obtain ⟨ihS, ihC, ihM, ihK, ihG⟩ := ih fs
      refine ⟨?_, ?_, ?_, ?_, ?_⟩ <;> simp only [startup_scan_rows, h1]
      · exact ihS.cons img
      · simpa using by omega
      · intro a ha hfile
        rcases List.mem_cons.mp ha with rfl | ha
        · rw [origPath] at hfile
          rw [hfile] at h1
          cases h1
        · exact ihM a ha hfile
      · exact ihK
      · exact ihG
    · rcases h2 : fs.isFile (thumb_file_path (dotRel img.file_path)) with _ | _
      · rcases hE : ensure_thumbnail pil (base ++ dotRel img.file_path)
            (thumb_file_path (dotRel img.file_path)) fs with ⟨o, fs2⟩
        rcases ensure_miss_cases h1 h2 hE with ⟨ho, hfs2, _⟩ | ⟨ho, tc, hfs2⟩
        · have hE2 : ensure_thumbnail pil (base ++ dotRel img.file_path)
              (thumb_file_path (dotRel img.file_path)) fs = (none, fs) := by
            rw [ho, hfs2] at hE
            exact hE
          obtain ⟨ihS, ihC, ihM, ihK, ihG⟩ := ih fs
          refine ⟨?_, ?_, ?_, ?_, ?_⟩ <;> simp only [startup_scan_rows, h1, h2, hE2]
          · exact ihS.cons₂ img
          · simpa using by omega
          · intro a ha hfile
            rcases List.mem_cons.mp ha with rfl | ha
            · exact List.mem_cons_self _ _
            · exact List.mem_cons_of_mem _ (ihM a ha hfile)
          · intro a ha
            rcases List.mem_cons.mp ha with rfl | ha
            · exact scan_rows_isFile_mono pil base rest fs (by rw [origPath]; exact h1)
            · exact ihK a ha
          · exact ihG
        · have hE2 : ensure_thumbnail pil (base ++ dotRel img.file_path)
              (thumb_file_path (dotRel img.file_path)) fs =
              (some (thumb_file_path (dotRel img.file_path)),
                fs.write (thumb_file_path (dotRel img.file_path)) tc) := by
            rw [ho, hfs2] at hE
            exact hE
          obtain ⟨ihS, ihC, ihM, ihK, ihG⟩ := ih (fs.write (thumb_file_path (dotRel img.file_path)) tc)
          have hdn : fs.read (thumb_file_path (dotRel img.file_path)) = none :=
            FS.isFile_eq_false.mp h2
          refine ⟨?_, ?_, ?_, ?_, ?_⟩ <;> simp only [startup_scan_rows, h1, h2, hE2]
          · exact ihS.cons₂ img
          · simpa using by omega
          · intro a ha hfile
            rcases List.mem_cons.mp ha with rfl | ha
            · exact List.mem_cons_self _ _
            · exact List.mem_cons_of_mem _
                (ihM a ha (FS.isFile_write_mono fs tc hdn hfile))
          · intro a ha
            rcases List.mem_cons.mp ha with rfl | ha
            · exact scan_rows_isFile_mono pil base rest _
                (FS.isFile_write_mono fs tc hdn (by rw [origPath]; exact h1))
            · exact ihK a ha
          · have hlen : (fs.write (thumb_file_path (dotRel img.file_path)) tc).files.length =
                fs.files.length + 1 := by simp [FS.write]
            rw [hlen] at ihG
            simpa using by omega
      · obtain ⟨ihS, ihC, ihM, ihK, ihG⟩ := ih fs
        refine ⟨?_, ?_, ?_, ?_, ?_⟩ <;> simp only [startup_scan_rows, h1, h2]
        · exact ihS.cons₂ img
        · simpa using by omega
        · intro a ha hfile
          rcases List.mem_cons.mp ha with rfl | ha
          · exact List.mem_cons_self _ _
          · exact List.mem_cons_of_mem _ (ihM a ha hfile)
        · intro a ha
          rcases List.mem_cons.mp ha with rfl | ha
          · exact scan_rows_isFile_mono pil base rest fs (by rw [origPath]; exact h1)
          · exact ihK a ha
        · exact ihG

/-- After the scan, every kept row either has its thumbnail on disk, or
its original's (unchanged) contents fail to produce a thumbnail. -/
theorem scan_rows_thumb (pil : PilCap) (base : FsPath) (l : List ImageRow)
    (fs : FS) :
    ∀ a ∈ (startup_scan_rows pil base l fs).imgs,
      (startup_scan_rows pil base l fs).fs.isFile (thumbPathOf a) = true ∨
      ∃ c, (startup_scan_rows pil base l fs).fs.read (origPath base a) = some c ∧
        thumbContentOf pil c = none := by
  induction l generalizing fs with
  | nil => simp [startup_scan_rows]
  | cons img rest ih =>
    rcases h1 : fs.isFile (base ++ dotRel img.file_path) with _ | _
    · simpa only [startup_scan_rows, h1] using ih fs
    · rcases h2 : fs.isFile (thumb_file_path (dotRel img.file_path)) with _ | _
      · rcases hE : ensure_thumbnail pil (base ++ dotRel img.file_path)
            (thumb_file_path (dotRel img.file_path)) fs with ⟨o, fs2⟩
        rcases ensure_miss_cases h1 h2 hE with ⟨ho, hfs2, c, hc, ht⟩ | ⟨ho, tc, hfs2⟩
        · have hE2 : ensure_thumbnail pil (base ++ dotRel img.file_path)
              (thumb_file_path (dotRel img.file_path)) fs = (none, fs) := by
            rw [ho, hfs2] at hE
            exact hE
          intro a ha
          simp only [startup_scan_rows, h1, h2, hE2] at ha ⊢
          rcases List.mem_cons.mp ha with rfl | ha
          · right
            exact ⟨c, by rw [origPath]; exact scan_rows_read_preserve pil base rest fs hc, ht⟩
          · exact ih fs a ha
        · have hE2 : ensure_thumbnail pil (base ++ dotRel img.file_path)
              (thumb_file_path (dotRel img.file_path)) fs =
              (some (thumb_file_path (dotRel img.file_path)),
                fs.write (thumb_file_path (dotRel img.file_path)) tc) := by
            rw [ho, hfs2] at hE
            exact hE
          intro a ha
          simp only [startup_scan_rows, h1, h2, hE2] at ha ⊢
          rcases List.mem_cons.mp ha with rfl | ha
          · left
            rw [thumbPathOf]
            exact scan_rows_isFile_mono pil base rest _
              (FS.isFile_eq_true.mpr ⟨tc, FS.read_write_self fs _ tc⟩)
          · exact ih (fs.write (thumb_file_path (dotRel img.file_path)) tc) a ha
      · intro a ha
        simp only [startup_scan_rows, h1, h2] at ha ⊢
        rcases List.mem_cons.mp ha with rfl | ha
        · left
          rw [thumbPathOf]
          exact scan_rows_isFile_mono pil base rest fs h2
        · exact ih fs a ha

/-- If every row's original is present and every row's thumbnail either
exists already or cannot be generated from the original's contents, the
scan is a complete no-op. -/
theorem scan_rows_noop (pil : PilCap) (base : FsPath) (l : List ImageRow)
    (fs : FS)
    (h1 : ∀ a ∈ l, fs.isFile (origPath base a) = true)
    (h2 : ∀ a ∈ l, fs.isFile (thumbPathOf a) = true ∨
      ∃ c, fs.read (origPath base a) = some c ∧ thumbContentOf pil c = none) :
    startup_scan_rows pil base l fs = ⟨l, fs, 0, 0⟩ := by
  induction l with
  | nil => simp [startup_scan_rows]
  | cons img rest ih =>
    have horig : fs.isFile (base ++ dotRel img.file_path) = true := by
      have h := h1 img (List.mem_cons_self _ _)
      rwa [origPath] at h
    have ihr := ih (fun a ha => h1 a (List.mem_cons_of_mem _ ha))
      (fun a ha => h2 a (List.mem_cons_of_mem _ ha))
    rcases hth : fs.isFile (thumb_file_path (dotRel img.file_path)) with _ | _
    · rcases h2 img (List.mem_cons_self _ _) with hpres | ⟨c, hc, ht⟩
      · rw [thumbPathOf] at hpres
        rw [hpres] at hth
        cases hth
      · have hc2 : fs.read (base ++ dotRel img.file_path) = some c := by
          rwa [origPath] at hc
        have hE : ensure_thumbnail pil (base ++ dotRel img.file_path)
            (thumb_file_path (dotRel img.file_path)) fs = (none, fs) :=
          ensure_fail_eq hc2 hth ht
        simp [startup_scan_rows, horig, hth, hE, ihr]
    · simp [startup_scan_rows, horig, hth, ihr]

/-- C5: the startup reconciler visits every row exactly once, keeping a
sublist of the rows; the removed counter equals the number of deleted
rows; a row whose original file exists is never deleted (in particular a
thumbnail failure deletes nothing); every kept row's original exists
afterwards; every kept row's thumbnail exists afterwards unless its
generation fails on the original's contents; and the generated counter
equals the number of thumbnail files created. -/
theorem startup_scan_characterization (pil : PilCap) (base : FsPath)
    (db : ServerDB) (fs : FS) :
    List.Sublist (startup_scan pil base db fs).db.images db.images ∧
    (startup_scan pil base db fs).removed +
      (startup_scan pil base db fs).db.images.length = db.images.length ∧
    (∀ a ∈ db.images, fs.isFile (origPath base a) = true →
      a ∈ (startup_scan pil base db fs).db.images) ∧
    (∀ a ∈ (startup_scan pil base db fs).db.images,
      (startup_scan pil base db fs).fs.isFile (origPath base a) = true) ∧
    (∀ a ∈ (startup_scan pil base db fs).db.images,
      (startup_scan pil base db fs).fs.isFile (thumbPathOf a) = true ∨
      ∃ c, (startup_scan pil base db fs).fs.read (origPath base a) = some c ∧
        thumbContentOf pil c = none) ∧
    (startup_scan pil base db fs).generated + fs.files.length =
      (startup_scan pil base db fs).fs.files.length := by
  obtain ⟨hS, hC, hM, hK, hG⟩ := scan_rows_main pil base db.images fs
  exact ⟨hS, hC, hM, hK, scan_rows_thumb pil base db.images fs, hG⟩

/-- Witness for C5 at a concrete input: the row whose original exists
survives the scan. -/
theorem startup_scan_characterization_witness :
    rowA ∈ (startup_scan pilW [] dbS fsS).db.images :=
  (startup_scan_characterization pilW [] dbS fsS).2.2.1 rowA (by decide)
    (by decide)

/-- C6: running the startup reconciler a second time on the catalog and
filesystem produced by a first run changes nothing and reports
`removed = 0` and `generated = 0`. -/
theorem startup_scan_idempotent (pil : PilCap) (base : FsPath)
    (db : ServerDB) (fs : FS) :
    startup_scan pil base (startup_scan pil base db fs).db
        (startup_scan pil base db fs).fs =
      ⟨(startup_scan pil base db fs).db, (startup_scan pil base db fs).fs,
        0, 0⟩ := by
  have hnoop : startup_scan_rows pil base
      (startup_scan_rows pil base db.images fs).imgs
      (startup_scan_rows pil base db.images fs).fs =
      ⟨(startup_scan_rows pil base db.images fs).imgs,
        (startup_scan_rows pil base db.images fs).fs, 0, 0⟩ :=
    scan_rows_noop pil base _ _ (scan_rows_main pil base db.images fs).2.2.2.1
      (scan_rows_thumb pil base db.images fs)
  simp only [startup_scan]
  rw [hnoop]

/-- C2: re-running the importer against the same source is NOT idempotent.
The duplicate check compares the source's `file_name` against the stored
`filename` column, but rows are stored under a freshly generated token, so
a second run re-imports the same record: here it reports `imported = 1`
and leaves two `Image` rows for the single source record. -/
theorem import_rerun_inserts_duplicate :
    (import_data uuidsW Mode.copy [] pilNone srcOne none
        (import_data uuidsU Mode.copy [] pilNone srcOne none db0 fsSrc).db
        (import_data uuidsU Mode.copy [] pilNone srcOne none db0 fsSrc).fs).imported = 1 ∧
    (import_data uuidsW Mode.copy [] pilNone srcOne none
        (import_data uuidsU Mode.copy [] pilNone srcOne none db0 fsSrc).db
        (import_data uuidsU Mode.copy [] pilNone srcOne none db0 fsSrc).fs).db.images.length = 2 := by
  decide

/-- C7 counterexample: a record excluded only for lacking the `"v"`
marker tag is dropped by a bare `continue`, with the skipped counter left
at 0 (the claim would require `skipped = 1`). -/
theorem import_missing_marker_not_counted :
    (import_data uuidsU Mode.copy [] pilNone srcNoV none db0 fsSrc).skipped = 0 ∧
    (import_data uuidsU Mode.copy [] pilNone srcNoV none db0 fsSrc).imported = 0 := by
  decide

/-- C7 amended: a record excluded for an unsupported extension, a
duplicate filename, or a missing source file increments the skipped
counter by one and changes nothing else; a record lacking the `"v"`
marker tag is excluded silently, leaving the whole state (skipped counter
included) unchanged. -/
theorem import_skipped_characterization (uuids : Nat → String) (mode : Mode)
    (copy_from : FsPath) (pil : PilCap) (sdb : SourceDB) (st : ImportState)
    (row : SrcRow) :
    ("v" ∉ imageTagsOf sdb row.id →
      processRecord uuids mode copy_from pil sdb st row = st) ∧
    ("v" ∈ imageTagsOf sdb row.id →
      lowerStr (nameSuffix row.file_name) ∉ SUPPORTED_EXT →
      processRecord uuids mode copy_from pil sdb st row =
        { st with skipped := st.skipped + 1 }) ∧
    ("v" ∈ imageTagsOf sdb row.id →
      lowerStr (nameSuffix row.file_name) ∈ SUPPORTED_EXT →
      (∃ img ∈ st.db.images, img.filename = row.file_name) →
      processRecord uuids mode copy_from pil sdb st row =
        { st with skipped := st.skipped + 1 }) ∧
    ("v" ∈ imageTagsOf sdb row.id →
      lowerStr (nameSuffix row.file_name) ∈ SUPPORTED_EXT →
      ¬ (∃ img ∈ st.db.images, img.filename = row.file_name) →
      st.fs.isFile (copy_from ++ pyPath ("." ++ row.file_path)) = false →
      processRecord uuids mode copy_from pil sdb st row =
        { st with skipped := st.skipped + 1 }) := by
  refine ⟨fun hv => ?_, fun hv hext => ?_, fun hv hext hdup => ?_,
    fun hv hext hdup hsrc => ?_⟩
  · simp [processRecord, hv]
  · simp [processRecord, hv, hext]
  · simp only [processRecord, hv, not_true, if_neg, if_pos, hext]
    simp [hdup]
  · simp only [processRecord, hv, hext]
    simp [hdup, hsrc]

/-- Witness for C7's amended claim: the four exclusion behaviours at
concrete inputs. -/
theorem import_skipped_characterization_witness :
    processRecord uuidsU Mode.copy [] pilNone srcNoV stA rowOne = stA ∧
    processRecord uuidsU Mode.copy [] pilNone srcBmp stA rowBmp =
      { stA with skipped := stA.skipped + 1 } ∧
    processRecord uuidsU Mode.copy [] pilNone srcOne stDup rowOne =
      { stDup with skipped := stDup.skipped + 1 } ∧
    processRecord uuidsU Mode.copy [] pilNone srcOne stEmptyFs rowOne =
      { stEmptyFs with skipped := stEmptyFs.skipped + 1 } :=
  ⟨(import_skipped_characterization uuidsU Mode.copy [] pilNone srcNoV stA
      rowOne).1 (by decide),
    (import_skipped_characterization uuidsU Mode.copy [] pilNone srcBmp stA
      rowBmp).2.1 (by decide) (by decide),
    (import_skipped_characterization uuidsU Mode.copy [] pilNone srcOne stDup
      rowOne).2.2.1 (by decide) (by decide) (by decide),
    (import_skipped_characterization uuidsU Mode.copy [] pilNone srcOne
      stEmptyFs rowOne).2.2.2 (by decide) (by decide) (by decide) (by decide)⟩

/-- C8 counterexample: importing a source record whose width is reported
as 0 yields a catalog row with width 0, so width is not a positive
integer for every row after an import. -/
theorem import_zero_width_row :
    ∃ im ∈ (import_data uuidsU Mode.copy [] pilNone srcZero none db0 fsSrc).db.images,
      ¬ 0 < im.width := by
  decide

/-- C8 amended: the dimensions and size of an imported row are carried
over verbatim from the source record, not validated: the inserted row's
width, height and file size equal the source's (and are positive only
when the source's values are). -/
theorem import_dimensions_verbatim (uuids : Nat → String) (mode : Mode)
    (copy_from : FsPath) (pil : PilCap) (sdb : SourceDB) (st : ImportState)
    (row : SrcRow)
    (hv : "v" ∈ imageTagsOf sdb row.id)
    (hext : lowerStr (nameSuffix row.file_name) ∈ SUPPORTED_EXT)
    (hdup : ¬ ∃ img ∈ st.db.images, img.filename = row.file_name)
    (hsrc : st.fs.isFile (copy_from ++ pyPath ("." ++ row.file_path)) = true) :
    ∃ im, (processRecord uuids mode copy_from pil sdb st row).db.images =
        im :: st.db.images ∧
      im.width = row.width ∧ im.height = row.height ∧
      im.file_size = row.file_size ∧
      im.filename = uuids st.fresh ++ lowerStr (nameSuffix row.file_name) := by
  refine ⟨⟨uuids st.fresh ++ lowerStr (nameSuffix row.file_name), row.width,
    row.height, row.file_size, sortedDedup (imageTagsOf sdb row.id)⟩,
    ?_, rfl, rfl, rfl, rfl⟩
  simp [processRecord, hv, hext, hdup, hsrc]

/-- Witness for C8's amended claim at a concrete input. -/
theorem import_dimensions_verbatim_witness :
    ∃ im, (processRecord uuidsU Mode.copy [] pilNone srcZero stA rowZero).db.images =
        im :: stA.db.images ∧
      im.width = rowZero.width ∧ im.height = rowZero.height ∧
      im.file_size = rowZero.file_size ∧
      im.filename = uuidsU stA.fresh ++ lowerStr (nameSuffix rowZero.file_name) :=
  import_dimensions_verbatim uuidsU Mode.copy [] pilNone srcZero stA rowZero
    (by decide) (by decide) (by decide) (by decide)

theorem mem_insertByName {t u : TagRow} {l : List TagRow} :
    t ∈ insertByName u l ↔ t = u ∨ t ∈ l := by
  induction l with
  | nil => simp [insertByName]
  | cons v vs ih =>
    by_cases h : u.name ≤ v.name
    · simp [insertByName, h]
    · rw [insertByName, if_neg h]
      simp only [List.mem_cons, ih]
      tauto

theorem mem_sortByName {t : TagRow} {l : List TagRow} :
    t ∈ sortByName l ↔ t ∈ l := by
  induction l with
  | nil => simp [sortByName]
  | cons v vs ih => simp [sortByName, mem_insertByName, ih]

theorem addTags_mono {t : String} (table ns : List String) (h : t ∈ table) :
    t ∈ addTags table ns := by
  induction ns generalizing table with
  | nil => simpa [addTags] using h
  | cons n rest ih =>
    by_cases hn : n ∈ table
    · simpa [addTags, hn] using ih table h
    · simpa [addTags, hn] using ih (table ++ [n]) (List.mem_append_left _ h)

theorem processRecord_tags_mono (uuids : Nat → String) (mode : Mode)
    (copy_from : FsPath) (pil : PilCap) (sdb : SourceDB) (st : ImportState)
    (row : SrcRow) {t : String} (ht : t ∈ st.db.tags) :
    t ∈ (processRecord uuids mode copy_from pil sdb st row).db.tags := by
  by_cases hv : "v" ∈ imageTagsOf sdb row.id
  · by_cases hext : lowerStr (nameSuffix row.file_name) ∈ SUPPORTED_EXT
    · by_cases hdup : ∃ img ∈ st.db.images, img.filename = row.file_name
      · simpa [processRecord, hv, hext, hdup] using ht
      · by_cases hsrc : st.fs.isFile (copy_from ++ pyPath ("." ++ row.file_path)) = true
        · simp only [processRecord, hv, hext]
          simp only [hdup, hsrc]
          simp
          exact addTags_mono st.db.tags _ ht
        · simpa [processRecord, hv, hext, hdup, hsrc] using ht
    · simpa [processRecord, hv, hext] using ht
  · simpa [processRecord, hv] using ht

theorem import_rows_tags_mono (uuids : Nat → String) (mode : Mode)
    (copy_from : FsPath) (pil : PilCap) (sdb : SourceDB) (l : List SrcRow)
    (st : ImportState) {t : String} (ht : t ∈ st.db.tags) :
    t ∈ (import_rows uuids mode copy_from pil sdb l st).db.tags := by
  induction l generalizing st with
  | nil => simpa [import_rows] using ht
  | cons row rest ih =>
    simpa [import_rows] using
      ih (processRecord uuids mode copy_from pil sdb st row)
        (processRecord_tags_mono uuids mode copy_from pil sdb st row ht)

/-- C9: no in-scope operation deletes a `Tag` row: the startup reconciler
leaves the tag table exactly unchanged, the importer only ever extends it
(every pre-existing tag name is still present afterwards), and the index
page's tag listing is read-only, containing exactly the tags that have at
least one associated image. -/
theorem tags_never_deleted (pil : PilCap) (base : FsPath) (db : ServerDB)
    (fs : FS) (uuids : Nat → String) (mode : Mode) (copy_from : FsPath)
    (sdb : SourceDB) (limit : Option Nat) (ldb : LocalDB) (lfs : FS) :
    (startup_scan pil base db fs).db.tags = db.tags ∧
    (∀ t ∈ ldb.tags,
      t ∈ (import_data uuids mode copy_from pil sdb limit ldb lfs).db.tags) ∧
    (∀ t, t ∈ index_tags db ↔ t ∈ db.tags ∧ tag_has_images db t = true) := by
  refine ⟨rfl, ?_, ?_⟩
  · intro t ht
    exact import_rows_tags_mono uuids mode copy_from pil sdb _ _ ht
  · intro t
    simp [index_tags, mem_sortByName, List.mem_filter]

/-- Witness for C9 at concrete inputs: a pre-existing tag survives a run
of the importer. -/
theorem tags_never_deleted_witness :
    "v" ∈ (import_data uuidsU Mode.copy [] pilNone srcOne none dbV fsSrc).db.tags :=
  (tags_never_deleted pilNone [] dbS fsS uuidsU Mode.copy [] srcOne none dbV
    fsSrc).2.1 "v" (by decide)

theorem processRecord_skip_fs (uuids : Nat → String) (copy_from : FsPath)
    (pil : PilCap) (sdb : SourceDB) (st : ImportState) (row : SrcRow) :
    (processRecord uuids Mode.skip copy_from pil sdb st row).fs = st.fs := by
  by_cases hv : "v" ∈ imageTagsOf sdb row.id
  · by_cases hext : lowerStr (nameSuffix row.file_name) ∈ SUPPORTED_EXT
    · by_cases hdup : ∃ img ∈ st.db.images, img.filename = row.file_name
      · simp [processRecord, hv, hext, hdup]
      · by_cases hsrc : st.fs.isFile (copy_from ++ pyPath ("." ++ row.file_path)) = true
        · simp [processRecord, hv, hext, hdup, hsrc]
        · simp [processRecord, hv, hext, hdup, hsrc]
    · simp [processRecord, hv, hext]
  · simp [processRecord, hv]

/-- C10: in `skip` mode the importer touches no file at all — the
filesystem after a whole run is exactly the one before — while each record
that reaches the insert step still adds an `Image` row whose stored
filename is a freshly generated token (with the source extension); hence
that filename refers to no file the importer created. -/
theorem import_skip_mode_no_files (uuids : Nat → String) (copy_from : FsPath)
    (pil : PilCap) (sdb : SourceDB) (limit : Option Nat) (db : LocalDB)
    (fs : FS) (st : ImportState) (row : SrcRow) :
    (import_data uuids Mode.skip copy_from pil sdb limit db fs).fs = fs ∧
    ("v" ∈ imageTagsOf sdb row.id →
      lowerStr (nameSuffix row.file_name) ∈ SUPPORTED_EXT →
      ¬ (∃ img ∈ st.db.images, img.filename = row.file_name) →
      st.fs.isFile (copy_from ++ pyPath ("." ++ row.file_path)) = true →
      ∃ im, (processRecord uuids Mode.skip copy_from pil sdb st row).db.images =
          im :: st.db.images ∧
        im.filename = uuids st.fresh ++ lowerStr (nameSuffix row.file_name) ∧
        (processRecord uuids Mode.skip copy_from pil sdb st row).fs = st.fs) := by
  constructor
  · have hrows : ∀ (l : List SrcRow) (st0 : ImportState),
        (import_rows uuids Mode.skip copy_from pil sdb l st0).fs = st0.fs := by
      intro l
      induction l with
      | nil => intro st0; simp [import_rows]
      | cons r rest ih =>
        intro st0
        rw [import_rows, ih, processRecord_skip_fs]
    unfold import_data
    exact hrows _ _
  · intro hv hext hdup hsrc
    refine ⟨⟨uuids st.fresh ++ lowerStr (nameSuffix row.file_name), row.width,
      row.height, row.file_size, sortedDedup (imageTagsOf sdb row.id)⟩, ?_,
      rfl, processRecord_skip_fs uuids copy_from pil sdb st row⟩
    simp [processRecord, hv, hext, hdup, hsrc]

/-- Witness for C10 at a concrete input: a skip-mode insert leaves the
filesystem untouched. -/
theorem import_skip_mode_no_files_witness :
    ∃ im, (processRecord uuidsU Mode.skip [] pilNone srcOne stA rowOne).db.images =
        im :: stA.db.images ∧
      im.filename = uuidsU stA.fresh ++ lowerStr (nameSuffix rowOne.file_name) ∧
      (processRecord uuidsU Mode.skip [] pilNone srcOne stA rowOne).fs = stA.fs :=
  (import_skip_mode_no_files uuidsU [] pilNone srcOne none db0 fsSrc stA
    rowOne).2 (by decide) (by decide) (by decide) (by decide)

theorem revSplitDot_append (l r : List Char) (hl : '.' ∉ l) :
    revSplitDot (l ++ '.' :: r) = some (l, r) := by
  induction l with
  | nil => simp [revSplitDot]
  | cons c cs ih =>
    have hc : ¬ c = '.' := fun h => hl (h ▸ List.mem_cons_self _ _)
    have hcs : '.' ∉ cs := fun h => hl (List.mem_cons_of_mem _ h)
    simp [revSplitDot, hc, ih hcs]

theorem string_data_append (s t : String) : (s ++ t).data = s.data ++ t.data := rfl

theorem nameSuffix_append_jpg (s : String) (h : s.data ≠ []) :
    nameSuffix (s ++ ".jpg") = ".jpg" := by
  have hrev : (s ++ ".jpg").toList.reverse = ['g', 'p', 'j'] ++ '.' :: s.data.reverse := by
    show ((s ++ ".jpg").data).reverse = _
    rw [string_data_append]
    show (s.data ++ ('.' :: ['j', 'p', 'g'])).reverse = _
    rw [List.reverse_append]
    rfl
  have hr : s.data.reverse ≠ [] := by
    intro h0
    exact h (List.reverse_eq_nil_iff.mp h0)
  simp only [nameSuffix, hrev,
    revSplitDot_append ['g', 'p', 'j'] s.data.reverse (by decide)]
  rw [if_neg]
  · rfl
  · rintro (h1 | h2)
    · exact hr h1
    · cases h2

theorem nameSuffix_withSuffix_jpg (name : String) (h : name ≠ "") :
    nameSuffix (nameWithSuffix name ".jpg") = ".jpg" := by
  have hd : name.data ≠ [] := by
    intro h0
    apply h
    exact String.toList_inj.mp (by simpa [String.toList] using h0)
  rcases hr : revSplitDot name.toList.reverse with _ | ⟨sufr, stemr⟩
  · simp only [nameWithSuffix, hr]
    exact nameSuffix_append_jpg name hd
  · by_cases hv : stemr = [] ∨ sufr = []
    · simp only [nameWithSuffix, hr, if_pos hv]
      exact nameSuffix_append_jpg name hd
    · simp only [nameWithSuffix, hr, if_neg hv]
      apply nameSuffix_append_jpg
      push_neg at hv
      intro h0
      exact hv.1 (List.reverse_eq_nil_iff.mp h0)

theorem withSuffix_ne_nil {p : FsPath} (hp : p ≠ []) (suf : String) :
    withSuffix p suf ≠ [] := by
  cases p with
  | nil => exact absurd rfl hp
  | cons c rest => cases rest <;> simp [withSuffix]

theorem getLast?_withSuffix : ∀ (p : FsPath) (name suf : String),
    p.getLast? = some name →
    (withSuffix p suf).getLast? = some (nameWithSuffix name suf)
  | [], _, _, h => by cases h
  | [n], name, suf, h => by
    have hn : n = name := by simpa using h
    subst hn
    simp [withSuffix]
  | c :: d :: ds, name, suf, h => by
    have h2 := getLast?_withSuffix (d :: ds) name suf
      (by simpa [List.getLast?_cons_cons] using h)
    have hcons : withSuffix (c :: d :: ds) suf = c :: withSuffix (d :: ds) suf := rfl
    rw [hcons]
    rcases he : withSuffix (d :: ds) suf with _ | ⟨x, xs⟩
    · exact absurd he (withSuffix_ne_nil (by simp) suf)
    · rw [he] at h2
      rw [List.getLast?_cons_cons]
      exact h2

/-- The serving-side thumbnail path always carries the `.jpg` suffix. -/
theorem thumb_file_path_suffix (p : FsPath) (name : String)
    (h : p.getLast? = some name) (hne : name ≠ "") :
    pathSuffix (thumb_file_path p) = ".jpg" := by
  have h1 := getLast?_withSuffix p name ".jpg" h
  have hp : p ≠ [] := by
    rintro rfl
    cases h
  have h2 : (thumb_file_path p).getLast? = some (nameWithSuffix name ".jpg") := by
    rw [thumb_file_path, List.getLast?_append_of_ne_nil _ (withSuffix_ne_nil hp ".jpg")]
    exact h1
  simp only [pathSuffix, h2]
  exact nameSuffix_withSuffix_jpg name hne

/-- In copy mode, the only paths the importer's per-record step can touch
are the destination image file and the destination thumbnail, both named
by the generated token with the source's (lower-cased) extension. -/
theorem processRecord_copy_footprint (uuids : Nat → String) (copy_from : FsPath)
    (pil : PilCap) (sdb : SourceDB) (st : ImportState) (row : SrcRow)
    (hv : "v" ∈ imageTagsOf sdb row.id)
    (hext : lowerStr (nameSuffix row.file_name) ∈ SUPPORTED_EXT)
    (hdup : ¬ ∃ img ∈ st.db.images, img.filename = row.file_name)
    (hsrc : st.fs.isFile (copy_from ++ pyPath ("." ++ row.file_path)) = true)
    (q : FsPath)
    (hq1 : q ≠ IMAGES_ROOT ++ [uuids st.fresh ++ lowerStr (nameSuffix row.file_name)])
    (hq2 : q ≠ THUMBS_ROOT ++ [uuids st.fresh ++ lowerStr (nameSuffix row.file_name)]) :
    (processRecord uuids Mode.copy copy_from pil sdb st row).fs.read q = st.fs.read q := by
  rcases FS.isFile_eq_true.mp hsrc with ⟨c, hc⟩
  simp [processRecord, hv, hext, hdup, hsrc, copyFile, hc]
  split
  · exact FS.read_write_of_ne st.fs c hq1
  · rw [FS.read_write_of_ne _ _ hq2]
    exact FS.read_write_of_ne st.fs c hq1

/-- C3 counterexample: the importer's thumbnail for a `.png` original is
written at `static/thumbs/<token>.png`, a path whose extension is `.png`,
not `.jpg`. -/
theorem importer_thumb_extension_not_jpg :
    (import_data uuidsU Mode.copy [] pilW srcPng none db0 fsPng).fs.isFile
      ["static", "thumbs", "u0hex.png"] = true ∧
    pathSuffix ["static", "thumbs", "u0hex.png"] = ".png" := by
  decide

/-- C3 amended: in the serving path the cached thumbnail location is the
thumbnail root joined with the original's relative path with the extension
replaced by `.jpg`; the importer path instead stores the image and its
thumbnail under the freshly generated filename that keeps the original's
(lower-cased) extension — the only two paths it writes are
`static/images/<token><ext>` and `static/thumbs/<token><ext>`. -/
theorem thumbnail_path_extension (p : FsPath) (name : String)
    (uuids : Nat → String) (copy_from : FsPath) (pil : PilCap)
    (sdb : SourceDB) (st : ImportState) (row : SrcRow) :
    (p.getLast? = some name → name ≠ "" →
      pathSuffix (thumb_file_path p) = ".jpg") ∧
    ("v" ∈ imageTagsOf sdb row.id →
      lowerStr (nameSuffix row.file_name) ∈ SUPPORTED_EXT →
      ¬ (∃ img ∈ st.db.images, img.filename = row.file_name) →
      st.fs.isFile (copy_from ++ pyPath ("." ++ row.file_path)) = true →
      ∀ q, (processRecord uuids Mode.copy copy_from pil sdb st row).fs.read q ≠
          st.fs.read q →
        q = IMAGES_ROOT ++ [uuids st.fresh ++ lowerStr (nameSuffix row.file_name)] ∨
        q = THUMBS_ROOT ++ [uuids st.fresh ++ lowerStr (nameSuffix row.file_name)]) := by
  constructor
  · intro h hne
    exact thumb_file_path_suffix p name h hne
  · intro hv hext hdup hsrc q hq
    by_contra hq0
    push_neg at hq0
    exact hq (processRecord_copy_footprint uuids copy_from pil sdb st row hv hext
      hdup hsrc q hq0.1 hq0.2)

/-- Witness for C3's amended claim: the serving path of a `.png` original
ends in `.jpg`, while the concrete path the importer wrote its thumbnail
to is the thumbnail root joined with the token plus `.png`. -/
theorem thumbnail_path_extension_witness :
    pathSuffix (thumb_file_path ["4k", "a.png"]) = ".jpg" ∧
    ((["static", "thumbs", "u0hex.png"] : FsPath) =
        IMAGES_ROOT ++ ["u0hex" ++ lowerStr (nameSuffix "a.png")] ∨
      (["static", "thumbs", "u0hex.png"] : FsPath) =
        THUMBS_ROOT ++ ["u0hex" ++ lowerStr (nameSuffix "a.png")]) :=
  ⟨(thumbnail_path_extension ["4k", "a.png"] "a.png" uuidsU [] pilW srcPng stPng
      rowPng).1 rfl (by decide),
    (thumbnail_path_extension ["4k", "a.png"] "a.png" uuidsU [] pilW srcPng stPng
      rowPng).2 (by decide) (by decide) (by decide) (by decide)
      ["static", "thumbs", "u0hex.png"] (by decide)⟩

end Wpserve
